import Mathlib

/-!
Verification development for the tun2socks relay core: the DNS hijack table
(`dns_ip_pool.go` side, file `part_000`) and the per-connection TCP tunnel
(`tcp2socks.go`).  Go maps are embedded as association lists with the usual
lookup/erase operations; machine state mutated in place becomes explicit
state passing; clock reads become an explicit `now : Time` argument.
-/

set_option maxRecDepth 4000

/-- Association-list lookup, embedding Go's `m[k]` (comma-ok form yields the
`Option`). -/
def alookup {α β : Type} [DecidableEq α] (k : α) : List (α × β) → Option β
  | [] => none
  | p :: ps => if p.1 = k then some p.2 else alookup k ps

/-- Association-list in-place value update: the Go code mutates the record a
map entry points to, which in the embedding replaces the value at its key. -/
def aupdate {α β : Type} [DecidableEq α] (k : α) (v : β) (l : List (α × β)) :
    List (α × β) :=
  l.map (fun p => if p.1 = k then (k, v) else p)

/-- Synthetic addresses; `net.IP` map keys (`ip.String()`) are embedded as the
address itself. -/
abbrev Addr := Nat

abbrev Domain := String

/-- Instants of `time.Time`; `a.Before(b)` becomes `a < b`. -/
abbrev Time := Nat

/-- Modelled from the spec: `configure.DNSDefaultTTL` (default hijack TTL in
seconds) is configuration code of the repository outside `src/`; its concrete
value is irrelevant to every claim. -/
def DNSDefaultTTL : Nat := 600

/-- A forged IPv4 answer (`*dns.A` produced by `ForgeIPv4Answer`): name,
fixed TTL and the synthetic address. -/
structure ForgedA where
  name : Domain
  ttl : Nat
  a : Addr
  deriving Repr, DecidableEq

/-- An answer resource record of a DNS message: either an IPv4 address record
(`*dns.A`) or any other record type. -/
inductive RR where
  | A (ip : Addr) : RR
  | Other : RR
  deriving Repr, DecidableEq

/-- A DNS message, reduced to its answer section (`msg.Answer`). -/
structure DnsMsg where
  answer : List RR
  deriving Repr, DecidableEq

/-- `DomainRecord` of `part_000`: a hijacked domain. -/
structure DomainRecord where
  hostname : Domain
  proxy : String
  ip : Addr
  realIP : Option Addr
  hits : Nat
  expires : Time
  answer : Option ForgedA
  deriving Repr, DecidableEq

/-- The scan loop inside `DomainRecord.SetRealIP`: Go's `break` inside the
`switch` exits only the `switch`, so the `for` keeps going and `ip` ends up
holding the address of the **last** `*dns.A` answer. -/
def scanAnswers : List RR → Option Addr → Option Addr
  | [], ip => ip
  | RR.A a :: rest, _ => scanAnswers rest (some a)
  | RR.Other :: rest, ip => scanAnswers rest ip

/-- `DomainRecord.SetRealIP`. -/
def DomainRecord.SetRealIP (record : DomainRecord) (msg : DnsMsg) :
    DomainRecord :=
  if record.realIP ≠ none then record
  else { record with realIP := scanAnswers msg.answer none }

/-- `DomainRecord.Touch`: hit counter += 1, expiry slides to now + TTL. -/
def DomainRecord.Touch (record : DomainRecord) (now : Time) : DomainRecord :=
  { record with hits := record.hits + 1, expires := now + DNSDefaultTTL }

/-- `ForgeIPv4Answer`: forge an IPv4 reply record for a hijacked domain. -/
def ForgeIPv4Answer (domain : Domain) (ip : Addr) : ForgedA :=
  { name := domain, ttl := DNSDefaultTTL, a := ip }

/-- Modelled from the spec: `DNSIPPool` (the synthetic-address pool) is code
of the repository outside `src/`.  Per spec section 4.1 it hands out a free
address of the subnet or none, `Release` returns an address to the free set,
and `Capacity` is the total number of usable addresses.  The free set is
carried as a list; no address is handed out twice while outstanding. -/
structure DNSIPPool where
  capacity : Nat
  free : List Addr
  deriving Repr, DecidableEq

/-- Modelled from the spec: `DNSIPPool.Alloc` returns a free address (here the
first of the free list) or none on exhaustion; the domain argument is not used
for the allocation decision. -/
def DNSIPPool.Alloc (pool : DNSIPPool) (_domain : Domain) :
    Option (Addr × DNSIPPool) :=
  match pool.free with
  | [] => none
  | a :: rest => some (a, { pool with free := rest })

/-- Modelled from the spec: `DNSIPPool.Release` returns an address to the
free set. -/
def DNSIPPool.Release (pool : DNSIPPool) (a : Addr) : DNSIPPool :=
  { pool with free := a :: pool.free }

/-- Modelled from the spec: `DNSIPPool.Capacity`. -/
def DNSIPPool.Capacity (pool : DNSIPPool) : Nat := pool.capacity

/-- `DNSTable` of `part_000`: the hijack table.  The two Go maps `records`
(domain -> record) and `ip2Domain` (hijacked address -> domain) are embedded
as association lists; the locks serialize the operations, which the embedding
realizes by making each operation one state transformation. -/
structure DNSTable where
  ipPool : DNSIPPool
  records : List (Domain × DomainRecord)
  ip2Domain : List (Addr × Domain)
  nonProxyDomains : List (Domain × Time)
  deriving Repr, DecidableEq

/-- `DNSTable.get` (unexported): lookup and `Touch` on hit; the in-place
mutation of the record becomes an update of the stored entry. -/
def DNSTable.get (c : DNSTable) (domain : Domain) (now : Time) :
    Option DomainRecord × DNSTable :=
  match alookup domain c.records with
  | none => (none, c)
  | some record =>
      let touched := record.Touch now
      (some touched, { c with records := aupdate domain touched c.records })

/-- `DNSTable.Get`: the locked public lookup. -/
def DNSTable.Get (c : DNSTable) (domain : Domain) (now : Time) :
    Option DomainRecord × DNSTable :=
  c.get domain now

/-- `DNSTable.GetByIP`: reverse lookup through `ip2Domain`, then `get`. -/
def DNSTable.GetByIP (c : DNSTable) (ip : Addr) (now : Time) :
    Option DomainRecord × DNSTable :=
  match alookup ip c.ip2Domain with
  | some domain => c.get domain now
  | none => (none, c)

/-- `DNSTable.Set`: return the existing record unchanged, else allocate an
address, build and `Touch` a fresh record with a forged cached answer, and
install the forward and reverse entries; on pool exhaustion log and return
none with the table untouched. -/
def DNSTable.Set (c : DNSTable) (domain : Domain) (proxy : String)
    (now : Time) : Option DomainRecord × DNSTable :=
  match alookup domain c.records with
  | some record => (some record, c)
  | none =>
    match c.ipPool.Alloc domain with
    | none => (none, c)
    | some (ip, pool) =>
      let record : DomainRecord :=
        DomainRecord.Touch
          { hostname := domain, proxy := proxy, ip := ip, realIP := none,
            hits := 0, expires := 0,
            answer := some (ForgeIPv4Answer domain ip) } now
      (some record,
        { c with ipPool := pool,
                 records := (domain, record) :: c.records,
                 ip2Domain := (ip, domain) :: c.ip2Domain })

/-- `DomainRecord.Expires.Before(now)` as the eviction test of the reaper. -/
def DomainRecord.expired (record : DomainRecord) (now : Time) : Bool :=
  decide (record.expires < now)

/-- `DNSTable.clearExpiredDomain`: compute the threshold
(`1000`, lowered to `Capacity()/10` when smaller), skip the sweep when
`len(records) <= threshold`, otherwise delete every expired record from both
maps and release its address.  Iterating the map and deleting the visited
entry is embedded as filtering both maps and folding `Release` over the
expired entries. -/
def DNSTable.clearExpiredDomain (c : DNSTable) (now : Time) : DNSTable :=
  let threshold :=
    if 1000 > c.ipPool.Capacity / 10 then c.ipPool.Capacity / 10 else 1000
  if c.records.length ≤ threshold then c
  else
    let expiredRecs := c.records.filter (fun p => p.2.expired now)
    { c with
      records := c.records.filter (fun p => !(p.2.expired now)),
      ip2Domain := c.ip2Domain.filter
        (fun q => !(expiredRecs.any (fun p => decide (p.2.ip = q.1)))),
      ipPool := expiredRecs.foldl (fun pool p => pool.Release p.2.ip) c.ipPool }

/-- `DNSTable.clearExpiredNonProxyDomain`: drop every non-proxy entry whose
expiry has passed. -/
def DNSTable.clearExpiredNonProxyDomain (c : DNSTable) (now : Time) :
    DNSTable :=
  { c with nonProxyDomains :=
      c.nonProxyDomains.filter (fun p => !(decide (p.2 < now))) }

/-- `DNSTable.IsNonProxyDomain`. -/
def DNSTable.IsNonProxyDomain (c : DNSTable) (domain : Domain) : Bool :=
  (alookup domain c.nonProxyDomains).isSome

/-- `DNSTable.SetNonProxyDomain`. -/
def DNSTable.SetNonProxyDomain (c : DNSTable) (domain : Domain) (ttl : Nat)
    (now : Time) : DNSTable :=
  { c with nonProxyDomains := (domain, now + ttl) :: c.nonProxyDomains }

/-- `DNSTable.Reload`: clear the non-proxy set, delete every record and its
reverse entry, and release every address back to the existing pool.  (The Go
function receives a new address and subnet but never uses them; the pool is
not rebuilt.) -/
def DNSTable.Reload (c : DNSTable) : DNSTable :=
  { c with
    nonProxyDomains := [],
    records := [],
    ip2Domain := c.ip2Domain.filter
      (fun q => !(c.records.any (fun p => decide (p.2.ip = q.1)))),
    ipPool := c.records.foldl (fun pool p => pool.Release p.2.ip) c.ipPool }

/-- `NewDnsTable`, parameterized by the (spec-modelled) pool it owns. -/
def NewDnsTable (pool : DNSIPPool) : DNSTable :=
  { ipPool := pool, records := [], ip2Domain := [], nonProxyDomains := [] }

/-- Well-formedness of a hijack table, the invariant the table's operations
maintain: unique keys in both maps, every record keyed by its own hostname,
the reverse index maps every record's address back to its domain, every
reverse entry is backed by a record holding that address, and the pool's free
list is duplicate-free and disjoint from the hijacked addresses. -/
structure DNSTable.WF (c : DNSTable) : Prop where
  keysNodup : (c.records.map Prod.fst).Nodup
  ipKeysNodup : (c.ip2Domain.map Prod.fst).Nodup
  hostEq : ∀ p ∈ c.records, p.2.hostname = p.1
  bijF : ∀ p ∈ c.records, alookup p.2.ip c.ip2Domain = some p.1
  backF : ∀ q ∈ c.ip2Domain,
    (alookup q.2 c.records).map DomainRecord.ip = some q.1
  freeDisj : ∀ a ∈ c.ipPool.free, alookup a c.ip2Domain = none
  freeNodup : c.ipPool.free.Nodup

/-- The bijection property of spec section 3: the reverse index maps each live
record's address back to its hostname, and no two live records share an
address. -/
def DNSTable.Bij (c : DNSTable) : Prop :=
  (∀ p ∈ c.records, alookup p.2.ip c.ip2Domain = some p.2.hostname) ∧
  (∀ p ∈ c.records, ∀ q ∈ c.records, p.2.ip = q.2.ip → p = q)

/-- Modelled from the spec: the `TunnelStatus` constants are code of the
repository outside `src/`; spec section 4.4 gives the three states
`Unset -> Proxying -> Closed` per side. -/
inductive TunnelStatus where
  | unset
  | proxying
  | closed
  deriving Repr, DecidableEq

/-- Errors of the user-space stack (`*tcpip.Error`), by how the tunnel
classifies them. -/
inductive TcpipErr where
  | errWouldBlock
  | errClosedForSend
  | errClosedForReceive
  | errClosed
  | errOther (code : Nat)
  deriving Repr, DecidableEq

/-- Errors of the remote (`net.Conn`) side and close reasons, by how the
tunnel classifies them.  `tcpipWrapped` embeds `errors.New(err.String())`
built from a stack-side error. -/
inductive NetErr where
  | timeout
  | connReset
  | eof
  | closedConn
  | brokenPipe
  | tcpipWrapped (e : TcpipErr)
  | other (code : Nat)
  deriving Repr, DecidableEq

/-- Modelled from the spec: `util.IsTimeout` is repository code outside
`src/`; it recognizes a read-deadline expiry. -/
def Util.IsTimeout : NetErr → Bool
  | NetErr.timeout => true
  | _ => false

/-- Modelled from the spec: `util.IsConnectionReset` recognizes a
connection-reset error. -/
def Util.IsConnectionReset : NetErr → Bool
  | NetErr.connReset => true
  | _ => false

/-- Modelled from the spec: `util.IsEOF` recognizes end-of-stream. -/
def Util.IsEOF : NetErr → Bool
  | NetErr.eof => true
  | _ => false

/-- Modelled from the spec: `util.IsClosed` recognizes a generic
already-closed condition. -/
def Util.IsClosed : NetErr → Bool
  | NetErr.closedConn => true
  | _ => false

/-- Modelled from the spec: `util.IsClosed` applied to a stack-side error. -/
def Util.IsClosedTcpip : TcpipErr → Bool
  | TcpipErr.errClosed => true
  | _ => false

/-- `TCPTunnel` of `tcp2socks.go`, with the externally observable effects of
its handles made explicit: counters for `localEndpoint.Close()` and
`remoteConn.Close()` invocations, the log of close reasons (`Close` logs a
non-nil reason), the log of error-level pump lines (`log.Println(err)`), and
the chunks delivered to the local endpoint. -/
structure TCPTunnel where
  localEndpointStatus : TunnelStatus
  remoteStatus : TunnelStatus
  closeOnceDone : Bool
  ctxCancelled : Bool
  localEndpointClosed : Nat
  remoteConnClosed : Nat
  reasonLogs : List NetErr
  errorLogs : List NetErr
  localWrites : List (List Nat)
  deriving Repr, DecidableEq

/-- The tunnel as `NewTCP2Socks` returns it: both statuses at their zero
value, the once-guard unconsumed, nothing closed or logged. -/
def newTunnel : TCPTunnel :=
  { localEndpointStatus := TunnelStatus.unset,
    remoteStatus := TunnelStatus.unset,
    closeOnceDone := false, ctxCancelled := false,
    localEndpointClosed := 0, remoteConnClosed := 0,
    reasonLogs := [], errorLogs := [], localWrites := [] }

/-- `TCPTunnel.SetRemoteStatus`. -/
def TCPTunnel.SetRemoteStatus (t : TCPTunnel) (s : TunnelStatus) : TCPTunnel :=
  { t with remoteStatus := s }

/-- `TCPTunnel.SetLocalEndpointStatus`. -/
def TCPTunnel.SetLocalEndpointStatus (t : TCPTunnel) (s : TunnelStatus) :
    TCPTunnel :=
  { t with localEndpointStatus := s }

/-- `TCPTunnel.Close`: the whole body runs under `closeOne.Do`, so a consumed
guard makes the call a no-op; otherwise log a non-nil reason, set both
statuses to Closed, cancel the context, and close both handles. -/
def TCPTunnel.Close (t : TCPTunnel) (reason : Option NetErr) : TCPTunnel :=
  if t.closeOnceDone then t
  else
    let t1 := match reason with
      | some e => { t with reasonLogs := t.reasonLogs ++ [e] }
      | none => t
    { t1 with
      closeOnceDone := true,
      localEndpointStatus := TunnelStatus.closed,
      remoteStatus := TunnelStatus.closed,
      ctxCancelled := true,
      localEndpointClosed := t1.localEndpointClosed + 1,
      remoteConnClosed := t1.remoteConnClosed + 1 }

/-- A sequence of `Close` invocations (concurrent callers serialize on the
once-guard's mutex, so any schedule is some sequence). -/
def closeMany (t : TCPTunnel) (rs : List (Option NetErr)) : TCPTunnel :=
  rs.foldl TCPTunnel.Close t

/-- Outcome of one `localEndpoint.Write` call: bytes accepted and the
returned stack error, if any. -/
structure WriteRes where
  n : Nat
  err : Option TcpipErr
  deriving Repr, DecidableEq

/-- The `writeAllPacket` loop of `readFromRemoteWriteToLocal`, driven by a
script of write outcomes (one entry per `Write` call; an exhausted script
stops the model).  Returns the tunnel and whether the outer
`readFromRemote` loop is broken. -/
def writeAllToLocal : TCPTunnel → List Nat → List WriteRes → TCPTunnel × Bool
  | t, chunk, _ws =>
    if chunk.length = 0 then (t, false)
    else
      match _ws with
      | [] => (t, false)
      | w :: rest =>
        let t1 := { t with localWrites := t.localWrites ++ [chunk.take w.n] }
        match w.err with
        | some e =>
          if e = TcpipErr.errWouldBlock ∧ w.n < chunk.length then
            writeAllToLocal t1 (chunk.drop w.n) rest
          else if e = TcpipErr.errClosedForSend ∨
              e = TcpipErr.errClosedForReceive then
            (t1, true)
          else if Util.IsClosedTcpip e then
            (t1.Close none, true)
          else
            (({ t1 with
                errorLogs := t1.errorLogs ++ [NetErr.tcpipWrapped e] }).Close
              (some (NetErr.tcpipWrapped e)), true)
        | none =>
          if w.n < chunk.length then writeAllToLocal t1 (chunk.drop w.n) rest
          else (t1, false)
  termination_by _t _chunk ws => ws.length

/-- Outcome of one `remoteConn.Read` call. -/
inductive RemoteReadEv where
  | ok (chunk : List Nat)
  | fail (e : NetErr)
  deriving Repr, DecidableEq

/-- One iteration of the `readFromRemote` loop body after the `ctx.Done`
check: classify a read error into a clean (`Close(nil)`) or logged error
close, or forward a non-empty chunk while the remote side is not Closed;
a zero-byte read or a Closed status breaks the loop.  The Bool is true when
the loop is broken. -/
def readFromRemoteIter (t : TCPTunnel) (ev : RemoteReadEv)
    (ws : List WriteRes) : TCPTunnel × Bool :=
  match ev with
  | RemoteReadEv.fail e =>
    if !(Util.IsTimeout e) && !(Util.IsConnectionReset e) &&
              !(Util.IsEOF e) then
      (({ t with errorLogs := t.errorLogs ++ [e] }).Close (some e), true)
    else
      (t.Close none, true)
  | RemoteReadEv.ok chunk =>
    if decide (chunk.length > 0) &&
        !(decide (t.remoteStatus = TunnelStatus.closed)) then
      writeAllToLocal t chunk ws
    else
      (t, true)

/-- Atomic events of a tunnel execution: the two status writes `Run` performs
after spawning the pumps, a `Close` invocation, and one remote-pump loop
iteration (which first observes the cancellation signal, as the loop head's
`select` does). -/
inductive TunAct where
  | setRemoteStatusAct (s : TunnelStatus)
  | setLocalStatusAct (s : TunnelStatus)
  | closeAct (reason : Option NetErr)
  | remoteIterAct (ev : RemoteReadEv) (ws : List WriteRes)
  deriving Repr, DecidableEq

/-- Effect of one atomic event on the tunnel state. -/
def applyAct (t : TCPTunnel) : TunAct → TCPTunnel
  | TunAct.setRemoteStatusAct s => t.SetRemoteStatus s
  | TunAct.setLocalStatusAct s => t.SetLocalEndpointStatus s
  | TunAct.closeAct r => t.Close r
  | TunAct.remoteIterAct ev ws =>
    if t.ctxCancelled then t else (readFromRemoteIter t ev ws).1

/-- An interleaving of two event sequences, preserving each one's order. -/
inductive Interleave {α : Type} : List α → List α → List α → Prop where
  | nil : Interleave [] [] []
  | left {x : α} {xs ys zs : List α} :
      Interleave xs ys zs → Interleave (x :: xs) ys (x :: zs)
  | right {y : α} {xs ys zs : List α} :
      Interleave xs ys zs → Interleave xs (y :: ys) (y :: zs)

/-- The two status writes `Run` performs concurrently with the already
started pumps (remote first, then local). -/
def runMainPre : List TunAct :=
  [TunAct.setRemoteStatusAct TunnelStatus.proxying,
   TunAct.setLocalStatusAct TunnelStatus.proxying]

/-- The remote pump's events for a script of read outcomes (one loop
iteration per read). -/
def remotePumpActs (script : List (RemoteReadEv × List WriteRes)) :
    List TunAct :=
  script.map (fun pr => TunAct.remoteIterAct pr.1 pr.2)

/-- The event sequences `Run` can produce for a given remote-pump script
(with a local pump that performs no state-changing event, as when it exits on
cancellation or closed-for-receive): any interleaving of `Run`'s status
writes with the pump's iterations, followed — only after both pumps have
finished — by `Run`'s final `Close(nil)`. -/
def RunTraceOf (script : List (RemoteReadEv × List WriteRes))
    (acts : List TunAct) : Prop :=
  ∃ merged, Interleave runMainPre (remotePumpActs script) merged ∧
    acts = merged ++ [TunAct.closeAct none]

/-- The states a tunnel passes through under a sequence of events. -/
def tunnelStates (t : TCPTunnel) (acts : List TunAct) : List TCPTunnel :=
  acts.scanl applyAct t


/-- A concrete hijack record for evaluating the model on explicit inputs. -/
def sampleRecord (d : Domain) (ip : Addr) (expires : Time) : DomainRecord :=
  { hostname := d, proxy := "p", ip := ip, realIP := none, hits := 1,
    expires := expires, answer := some (ForgeIPv4Answer d ip) }

/-- The record `Set` constructs for a fresh domain before installing it. -/
def freshRecord (domain : Domain) (proxy : String) (ip : Addr)
    (now : Time) : DomainRecord :=
  DomainRecord.Touch
    { hostname := domain, proxy := proxy, ip := ip, realIP := none,
      hits := 0, expires := 0,
      answer := some (ForgeIPv4Answer domain ip) } now

/-- A small well-formed table: one live record, two free addresses. -/
def tableOne : DNSTable :=
  { ipPool := { capacity := 100, free := [7, 8] },
    records := [("a.", sampleRecord "a." 5 10)],
    ip2Domain := [(5, "a.")],
    nonProxyDomains := [] }

/-- An empty table over a four-address pool. -/
def tableEmpty4 : DNSTable := NewDnsTable { capacity := 4, free := [1, 2, 3, 4] }

/-- An empty table over an exhausted pool. -/
def tableExhausted : DNSTable := NewDnsTable { capacity := 4, free := [] }

/-- A table over a capacity-100 pool holding `n` records, all already
expired at time 1. -/
def tableN (n : Nat) : DNSTable :=
  { ipPool := { capacity := 100, free := [] },
    records := (List.range n).map
      (fun i => (toString i, sampleRecord (toString i) i 0)),
    ip2Domain := (List.range n).map (fun i => (i, toString i)),
    nonProxyDomains := [] }

/-- True when a resource record is an IPv4 address record. -/
def RR.isA : RR → Bool
  | RR.A _ => true
  | RR.Other => false

/-- True when a message's answer section holds at least one IPv4 record. -/
def msgHasA (m : DnsMsg) : Bool := m.answer.any RR.isA

/-- The schedule in which the remote pump's read fails with an unclassified
error before `Run` has performed its two status writes, followed by `Run`'s
final close. -/
def raceActs : List TunAct :=
  [TunAct.remoteIterAct (RemoteReadEv.fail (NetErr.other 0)) [],
   TunAct.setRemoteStatusAct TunnelStatus.proxying,
   TunAct.setLocalStatusAct TunnelStatus.proxying,
   TunAct.closeAct none]

/-- The schedule in which the remote pump's only read returns zero bytes,
interleaved before `Run`'s status writes, followed by `Run`'s final close. -/
def zeroReadActs : List TunAct :=
  [TunAct.remoteIterAct (RemoteReadEv.ok []) [],
   TunAct.setRemoteStatusAct TunnelStatus.proxying,
   TunAct.setLocalStatusAct TunnelStatus.proxying,
   TunAct.closeAct none]

theorem alookup_eq_none_iff {α β : Type} [DecidableEq α] {k : α}
    {l : List (α × β)} : alookup k l = none ↔ ∀ p ∈ l, p.1 ≠ k := by
  induction l with
  | nil => simp [alookup]
  | cons p ps ih =>
    by_cases h : p.1 = k
    · simp [alookup, h]
    · simp [alookup, h, ih]

theorem alookup_mem {α β : Type} [DecidableEq α] {k : α} {v : β}
    {l : List (α × β)} (h : alookup k l = some v) : (k, v) ∈ l := by
  induction l with
  | nil => simp [alookup] at h
  | cons p ps ih =>
    obtain ⟨a, b⟩ := p
    by_cases hk : a = k
    · subst hk
      simp [alookup] at h
      subst h
      exact List.mem_cons_self _ _
    · simp [alookup, hk] at h
      exact List.mem_cons_of_mem _ (ih h)

theorem alookup_filter_some {α β : Type} [DecidableEq α] {k : α} {v : β}
    {l : List (α × β)} {f : α × β → Bool} (h : alookup k l = some v)
    (hf : f (k, v) = true) : alookup k (l.filter f) = some v := by
  induction l with
  | nil => simp [alookup] at h
  | cons p ps ih =>
    obtain ⟨a, b⟩ := p
    by_cases hk : a = k
    · subst hk
      simp [alookup] at h
      subst h
      simp [List.filter_cons, hf, alookup]
    · simp [alookup, hk] at h
      by_cases hfp : f (a, b) = true
      · simp [List.filter_cons, hfp, alookup, hk]
        exact ih h
      · simp only [List.filter_cons]
        rw [if_neg (by simpa using hfp)]
        exact ih h

theorem alookup_filter_none {α β : Type} [DecidableEq α] {k : α}
    {l : List (α × β)} {f : α × β → Bool} (h : alookup k l = none) :
    alookup k (l.filter f) = none := by
  rw [alookup_eq_none_iff] at h ⊢
  intro p hp
  exact h p (List.mem_filter.mp hp).1

theorem alookup_filter_dropped {α β : Type} [DecidableEq α] {k : α}
    {l : List (α × β)} {f : α × β → Bool}
    (h : ∀ p ∈ l, p.1 = k → f p = false) :
    alookup k (l.filter f) = none := by
  rw [alookup_eq_none_iff]
  intro p hp hk
  have hmem := (List.mem_filter.mp hp).1
  have hft := (List.mem_filter.mp hp).2
  have := h p hmem hk
  rw [this] at hft
  exact Bool.false_ne_true hft

theorem keyInj_of_nodup {α β : Type} {l : List (α × β)}
    (h : (l.map Prod.fst).Nodup) :
    ∀ p ∈ l, ∀ q ∈ l, p.1 = q.1 → p = q :=
  fun _p hp _q hq hpq => List.inj_on_of_nodup_map h hp hq hpq

theorem release_foldl (l : List (Domain × DomainRecord)) (pool : DNSIPPool) :
    (l.foldl (fun pl q => pl.Release q.2.ip) pool).free =
      (l.map (fun q => q.2.ip)).reverse ++ pool.free := by
  induction l generalizing pool with
  | nil => simp
  | cons p ps ih =>
    simp only [List.foldl_cons, List.map_cons, List.reverse_cons,
      List.append_assoc]
    rw [ih]
    simp [DNSIPPool.Release]

theorem DNSTable.WF.toBij {c : DNSTable} (h : c.WF) : c.Bij := by
  constructor
  · intro p hp
    rw [h.hostEq p hp]
    exact h.bijF p hp
  · intro p hp q hq hip
    have h1 := h.bijF p hp
    have h2 := h.bijF q hq
    rw [hip] at h1
    have hkey : p.1 = q.1 := Option.some.inj (h1.symm.trans h2)
    exact keyInj_of_nodup h.keysNodup p hp q hq hkey

theorem WF_Set (c : DNSTable) (d : Domain) (px : String) (now : Time)
    (h : c.WF) : ((c.Set d px now).2).WF := by
  cases hl : alookup d c.records with
  | some r =>
    simp only [DNSTable.Set, hl]
    exact h
  | none =>
    cases hf : c.ipPool.free with
    | nil =>
      simp only [DNSTable.Set, hl, DNSIPPool.Alloc, hf]
      exact h
    | cons a rest =>
      simp only [DNSTable.Set, hl, DNSIPPool.Alloc, hf]
      have hdni : ∀ p ∈ c.records, p.1 ≠ d := alookup_eq_none_iff.mp hl
      have hamem : a ∈ c.ipPool.free := by rw [hf]; exact List.mem_cons_self _ _
      have hafresh : alookup a c.ip2Domain = none := h.freeDisj a hamem
      have haDisj : ∀ q ∈ c.ip2Domain, q.1 ≠ a :=
        alookup_eq_none_iff.mp hafresh
      have hnodupAR : (a :: rest).Nodup := by rw [← hf]; exact h.freeNodup
      have hanotin : a ∉ rest := (List.nodup_cons.mp hnodupAR).1
      have hrestN : rest.Nodup := (List.nodup_cons.mp hnodupAR).2
      constructor
      · simp only [List.map_cons]
        rw [List.nodup_cons]
        refine ⟨?_, h.keysNodup⟩
        intro hdmem
        obtain ⟨p, hp, hpd⟩ := List.mem_map.mp hdmem
        exact hdni p hp hpd
      · simp only [List.map_cons]
        rw [List.nodup_cons]
        refine ⟨?_, h.ipKeysNodup⟩
        intro hamem2
        obtain ⟨q, hq, hqa⟩ := List.mem_map.mp hamem2
        exact haDisj q hq hqa
      · intro p hp
        rcases List.mem_cons.mp hp with hhead | htail
        · subst hhead; rfl
        · exact h.hostEq p htail
      · intro p hp
        rcases List.mem_cons.mp hp with hhead | htail
        · subst hhead
          simp [alookup, DomainRecord.Touch]
        · have hold := h.bijF p htail
          have hne : a ≠ p.2.ip := by
            intro heq
            rw [← heq] at hold
            rw [hafresh] at hold
            exact Option.noConfusion hold
          simp only [alookup, hne, if_false, if_neg hne]
          exact hold
      · intro q hq
        rcases List.mem_cons.mp hq with hhead | htail
        · subst hhead
          simp [alookup, DomainRecord.Touch]
        · have hold := h.backF q htail
          have hne : d ≠ q.2 := by
            intro heq
            rw [← heq] at hold
            rw [hl] at hold
            exact Option.noConfusion hold
          simp only [alookup, if_neg hne]
          exact hold
      · intro x hx
        have hxfree : x ∈ c.ipPool.free := by
          rw [hf]; exact List.mem_cons_of_mem _ hx
        have hne : a ≠ x := by
          intro heq; rw [heq] at hanotin; exact hanotin hx
        simp only [alookup, if_neg hne]
        exact h.freeDisj x hxfree
      · exact hrestN

theorem WF_sweep (c : DNSTable) (now : Time) (h : c.WF) :
    DNSTable.WF
      { ipPool := List.foldl (fun pool p => pool.Release p.2.ip) c.ipPool
          (List.filter (fun p => p.2.expired now) c.records),
        records := List.filter (fun p => !p.2.expired now) c.records,
        ip2Domain := List.filter
          (fun q => !(List.filter (fun p => p.2.expired now) c.records).any
            fun p => decide (p.2.ip = q.1)) c.ip2Domain,
        nonProxyDomains := c.nonProxyDomains } := by
  have hpairsN : c.records.Nodup := List.Nodup.of_map _ h.keysNodup
  have ipInj := (DNSTable.WF.toBij h).2
  have hanyF : ∀ p ∈ c.records, (!(p.2.expired now)) = true →
      (c.records.filter (fun r => r.2.expired now)).any
        (fun r => decide (r.2.ip = p.2.ip)) = false := by
    intro p hpm hpe
    rw [Bool.eq_false_iff]
    intro hany
    obtain ⟨r, hrm, hri⟩ := List.any_eq_true.mp hany
    have hrrec := (List.mem_filter.mp hrm).1
    have hrexp := (List.mem_filter.mp hrm).2
    have : r = p := ipInj r hrrec p hpm (by simpa using hri)
    rw [this] at hrexp
    simp [hrexp] at hpe
  constructor
  · exact List.Nodup.sublist
      (List.Sublist.map _ (List.filter_sublist _)) h.keysNodup
  · exact List.Nodup.sublist
      (List.Sublist.map _ (List.filter_sublist _)) h.ipKeysNodup
  · intro p hp
    exact h.hostEq p (List.mem_filter.mp hp).1
  · intro p hp
    have hpm := (List.mem_filter.mp hp).1
    have hpe := (List.mem_filter.mp hp).2
    refine alookup_filter_some (h.bijF p hpm) ?_
    show (!(c.records.filter (fun r => r.2.expired now)).any
      (fun r => decide (r.2.ip = p.2.ip))) = true
    rw [hanyF p hpm hpe]
    rfl
  · intro q hq
    have hqm := (List.mem_filter.mp hq).1
    have hqf := (List.mem_filter.mp hq).2
    have hqany : (c.records.filter (fun r => r.2.expired now)).any
        (fun r => decide (r.2.ip = q.1)) = false := by
      simpa using hqf
    obtain ⟨r, har, hri⟩ := Option.map_eq_some'.mp (h.backF q hqm)
    have hrm : (q.2, r) ∈ c.records := alookup_mem har
    have hrne : r.expired now = false := by
      rw [Bool.eq_false_iff]
      intro hexp
      have hmemf : (q.2, r) ∈ c.records.filter (fun p => p.2.expired now) :=
        List.mem_filter.mpr ⟨hrm, hexp⟩
      have : (c.records.filter (fun p => p.2.expired now)).any
          (fun p => decide (p.2.ip = q.1)) = true :=
        List.any_eq_true.mpr ⟨(q.2, r), hmemf, by simp [hri]⟩
      rw [this] at hqany
      exact Bool.noConfusion hqany
    have := alookup_filter_some (f := fun p => !(p.2.expired now)) har
      (by simp [hrne])
    rw [this]
    simp [hri]
  · intro x hx
    rw [release_foldl] at hx
    rcases List.mem_append.mp hx with hexp | hfree
    · rw [List.mem_reverse] at hexp
      obtain ⟨r, hrm, hrx⟩ := List.mem_map.mp hexp
      rw [alookup_eq_none_iff]
      intro q hq hqx
      have hqf : (!(c.records.filter (fun p => p.2.expired now)).any
          (fun p => decide (p.2.ip = q.1))) = true := (List.mem_filter.mp hq).2
      have : (c.records.filter (fun p => p.2.expired now)).any
          (fun p => decide (p.2.ip = q.1)) = true :=
        List.any_eq_true.mpr ⟨r, hrm, by simp [hrx, hqx]⟩
      rw [this] at hqf
      simp at hqf
    · exact alookup_filter_none (h.freeDisj x hfree)
  · rw [release_foldl, List.nodup_append]
    refine ⟨?_, h.freeNodup, ?_⟩
    · rw [List.nodup_reverse]
      refine List.Nodup.map_on ?_ (List.Nodup.filter _ hpairsN)
      intro p hp q hq hpq
      exact ipInj p (List.mem_filter.mp hp).1 q (List.mem_filter.mp hq).1 hpq
    · intro x hx hxfree
      rw [List.mem_reverse] at hx
      obtain ⟨r, hrm, hrx⟩ := List.mem_map.mp hx
      have hrrec := (List.mem_filter.mp hrm).1
      have hbij := h.bijF r hrrec
      have hnone := h.freeDisj x hxfree
      rw [hrx] at hbij
      rw [hnone] at hbij
      exact Option.noConfusion hbij

theorem WF_clear (c : DNSTable) (now : Time) (h : c.WF) :
    (c.clearExpiredDomain now).WF := by
  simp only [DNSTable.clearExpiredDomain]
  split <;> split
  · exact h
  · exact WF_sweep c now h
  · exact h
  · exact WF_sweep c now h

theorem WF_reload (c : DNSTable) (h : c.WF) : c.Reload.WF := by
  have hpairsN : c.records.Nodup := List.Nodup.of_map _ h.keysNodup
  have ipInj := (DNSTable.WF.toBij h).2
  have hip2 : c.ip2Domain.filter
      (fun q => !(c.records.any (fun p => decide (p.2.ip = q.1)))) = [] := by
    rw [List.filter_eq_nil_iff]
    intro q hq
    obtain ⟨r, har, hri⟩ := Option.map_eq_some'.mp (h.backF q hq)
    have hrm : (q.2, r) ∈ c.records := alookup_mem har
    have hany : c.records.any (fun p => decide (p.2.ip = q.1)) = true :=
      List.any_eq_true.mpr ⟨(q.2, r), hrm, by simp [hri]⟩
    simp [hany]
  simp only [DNSTable.Reload, hip2]
  constructor
  · simp
  · simp
  · intro p hp
    exact absurd hp (List.not_mem_nil p)
  · intro p hp
    exact absurd hp (List.not_mem_nil p)
  · intro q hq
    exact absurd hq (List.not_mem_nil q)
  · intro x _hx
    simp [alookup]
  · rw [release_foldl, List.nodup_append]
    refine ⟨?_, h.freeNodup, ?_⟩
    · rw [List.nodup_reverse]
      refine List.Nodup.map_on ?_ hpairsN
      intro p hp q hq hpq
      exact ipInj p hp q hq hpq
    · intro x hx hxfree
      rw [List.mem_reverse] at hx
      obtain ⟨r, hrm, hrx⟩ := List.mem_map.mp hx
      have hbij := h.bijF r hrm
      have hnone := h.freeDisj x hxfree
      rw [hrx] at hbij
      rw [hnone] at hbij
      exact Option.noConfusion hbij

theorem scanAnswers_of_no_A {l : List RR} (h : l.any RR.isA = false)
    (ip : Option Addr) : scanAnswers l ip = ip := by
  induction l generalizing ip with
  | nil => rfl
  | cons rr rest ih =>
    cases rr with
    | A a => simp [RR.isA] at h
    | Other =>
      simp only [List.any_cons, RR.isA, Bool.false_or] at h
      exact ih h ip

theorem scanAnswers_isSome_of_some (l : List RR) (a : Addr) :
    (scanAnswers l (some a)).isSome = true := by
  induction l generalizing a with
  | nil => rfl
  | cons rr rest ih =>
    cases rr with
    | A b => exact ih b
    | Other => exact ih a

theorem scanAnswers_isSome_of_hasA {l : List RR} (h : l.any RR.isA = true)
    (ip : Option Addr) : (scanAnswers l ip).isSome = true := by
  induction l generalizing ip with
  | nil => simp at h
  | cons rr rest ih =>
    cases rr with
    | A b => exact scanAnswers_isSome_of_some rest b
    | Other =>
      simp only [List.any_cons, RR.isA, Bool.false_or] at h
      exact ih h ip

theorem close_done_fix (t : TCPTunnel) (r : Option NetErr)
    (h : t.closeOnceDone = true) : t.Close r = t := by
  simp [TCPTunnel.Close, h]

theorem closeMany_done_fix (t : TCPTunnel) (rs : List (Option NetErr))
    (h : t.closeOnceDone = true) : closeMany t rs = t := by
  induction rs with
  | nil => rfl
  | cons r rest ih =>
    simp only [closeMany, List.foldl_cons] at ih ⊢
    rw [close_done_fix t r h]
    exact ih

theorem close_sets_done (t : TCPTunnel) (r : Option NetErr) :
    (t.Close r).closeOnceDone = true := by
  by_cases h : t.closeOnceDone = true
  · rw [close_done_fix t r h]; exact h
  · rw [Bool.not_eq_true] at h
    cases r <;> simp [TCPTunnel.Close, h]

/-- C1: for every live record r of a well-formed hijack table the reverse
index maps r's synthetic address back to r's hostname and no two live records
share an address, and this invariant (as the inductive well-formedness `WF`,
which contains it) is preserved by `Set`, by the reaper sweep
`clearExpiredDomain`, and by `Reload`. -/
theorem hijack_bijection_invariant (c : DNSTable) (d : Domain) (p : String)
    (now : Time) (h : c.WF) :
    c.Bij ∧
      ((c.Set d p now).2).WF ∧ ((c.Set d p now).2).Bij ∧
      (c.clearExpiredDomain now).WF ∧ (c.clearExpiredDomain now).Bij ∧
      c.Reload.WF ∧ c.Reload.Bij :=
  ⟨h.toBij, WF_Set c d p now h, (WF_Set c d p now h).toBij,
   WF_clear c now h, (WF_clear c now h).toBij,
   WF_reload c h, (WF_reload c h).toBij⟩

/-- Witness for C1 at a concrete well-formed table. -/
theorem hijack_bijection_invariant_witness :
    tableOne.Bij ∧
      ((tableOne.Set "b." "q" 3).2).WF ∧ ((tableOne.Set "b." "q" 3).2).Bij ∧
      (tableOne.clearExpiredDomain 3).WF ∧
      (tableOne.clearExpiredDomain 3).Bij ∧
      tableOne.Reload.WF ∧ tableOne.Reload.Bij :=
  hijack_bijection_invariant tableOne "b." "q" 3
    ⟨by decide, by decide, by decide, by decide, by decide, by decide,
     by decide⟩

/-- C2: on a fresh domain with a non-exhausted pool, `Set` succeeds, a second
`Set` with no intervening eviction returns the very same record and leaves
the table (hence the pool) unchanged, exactly one pool address was consumed,
and the round trip `GetByIP` at the record's address recovers the domain. -/
theorem set_idempotent_roundtrip (c : DNSTable) (D : Domain) (P : String)
    (n1 n2 n3 : Time) (hfresh : alookup D c.records = none)
    (hpool : c.ipPool.free ≠ []) :
    ∃ r, (c.Set D P n1).1 = some r ∧
      ((c.Set D P n1).2).Set D P n2 = (some r, (c.Set D P n1).2) ∧
      ((c.Set D P n1).2).ipPool.free.length + 1 = c.ipPool.free.length ∧
      (((c.Set D P n1).2).GetByIP r.ip n3).1.map DomainRecord.hostname =
        some D := by
  cases hf : c.ipPool.free with
  | nil => exact absurd hf hpool
  | cons a rest =>
    refine ⟨freshRecord D P a n1, ?_, ?_, ?_, ?_⟩ <;>
      simp [DNSTable.Set, DNSTable.GetByIP, DNSTable.get, hfresh, hf,
        DNSIPPool.Alloc, alookup, DomainRecord.Touch, freshRecord]

/-- Witness for C2: a fresh domain on an empty table over a four-address
pool. -/
theorem set_idempotent_roundtrip_witness :
    ∃ r, (tableEmpty4.Set "w." "t" 0).1 = some r ∧
      ((tableEmpty4.Set "w." "t" 0).2).Set "w." "t" 1 =
        (some r, (tableEmpty4.Set "w." "t" 0).2) ∧
      ((tableEmpty4.Set "w." "t" 0).2).ipPool.free.length + 1 =
        tableEmpty4.ipPool.free.length ∧
      (((tableEmpty4.Set "w." "t" 0).2).GetByIP r.ip 2).1.map
        DomainRecord.hostname = some "w." :=
  set_idempotent_roundtrip tableEmpty4 "w." "t" 0 1 2 (by decide) (by decide)

/-- C3 counterexample: over a capacity-100 pool the threshold is 10, and a
table holding exactly 10 records, all expired, is left completely unchanged
by the sweep — the claimed eviction on reaching the 10th record does not
happen, because the code skips the sweep when `len(records) <= threshold`. -/
theorem reaper_tenth_record_is_noop :
    (tableN 10).ipPool.Capacity = 100 ∧
    (tableN 10).records.length = 10 ∧
    (∀ p ∈ (tableN 10).records, p.2.expired 1 = true) ∧
    (tableN 10).clearExpiredDomain 1 = tableN 10 := by
  refine ⟨rfl, rfl, by decide, ?_⟩
  decide

/-- C3 amended: with pool capacity 100 the eviction threshold is
min(1000, 100/10) = 10; a sweep over a table holding at most 10 records
(expired or not) is a no-op — so 9 expired records are kept, and so is the
10th — and only from the 11th record onward (here: all expired) does the
next reaper tick evict the expired records. -/
theorem reaper_threshold_gating (c : DNSTable) (now : Time)
    (hcap : c.ipPool.Capacity = 100) :
    (c.records.length ≤ 10 → c.clearExpiredDomain now = c) ∧
    (c.records.length = 11 → (∀ p ∈ c.records, p.2.expired now = true) →
      (c.clearExpiredDomain now).records = []) := by
  have hth : (if 1000 > c.ipPool.Capacity / 10 then c.ipPool.Capacity / 10
      else 1000) = 10 := by
    rw [hcap]
    decide
  constructor
  · intro hlen
    simp only [DNSTable.clearExpiredDomain, hth]
    rw [if_pos hlen]
  · intro hlen hall
    simp only [DNSTable.clearExpiredDomain, hth]
    rw [if_neg (by omega)]
    simp only []
    rw [List.filter_eq_nil_iff]
    intro p hp
    simp [hall p hp]

/-- Witness for C3's amended statement: the 10-record table is untouched,
the 11-record all-expired table is emptied. -/
theorem reaper_threshold_gating_witness :
    ((tableN 10).records.length ≤ 10 →
      (tableN 10).clearExpiredDomain 1 = tableN 10) ∧
    ((tableN 11).records.length = 11 →
      (∀ p ∈ (tableN 11).records, p.2.expired 1 = true) →
      ((tableN 11).clearExpiredDomain 1).records = []) :=
  ⟨(reaper_threshold_gating (tableN 10) 1 rfl).1,
   (reaper_threshold_gating (tableN 11) 1 rfl).2⟩

/-- C4: evaluation of `SetRealIP` at the failing input.  On a record with an
unset real address and a message whose answers are the IPv4 records for
address 1 and then address 2, the code stores address 2 — the **last** IPv4
answer — not the first one, because the `break` inside the type `switch`
only exits the `switch` and the loop keeps overwriting `ip`. -/
theorem setRealIP_stores_last_answer :
    (sampleRecord "a." 5 10).realIP = none ∧
    ((sampleRecord "a." 5 10).SetRealIP
      { answer := [RR.A 1, RR.A 2] }).realIP = some 2 ∧
    some (2 : Addr) ≠ some (1 : Addr) := by
  refine ⟨rfl, ?_, by decide⟩
  decide

/-- C6: when the domain has no record and the pool is exhausted, `Set`
returns none and the table — records, reverse index, non-proxy set and pool
alike — is exactly what it was; and after any single address is released
back to the pool, the same `Set` succeeds. -/
theorem set_pool_exhausted (c : DNSTable) (d : Domain) (p : String)
    (now : Time) (hfresh : alookup d c.records = none)
    (hempty : c.ipPool.free = []) :
    c.Set d p now = (none, c) ∧
    ∀ a : Addr,
      ((({ c with ipPool := c.ipPool.Release a }).Set d p now).1).isSome =
        true := by
  constructor
  · simp [DNSTable.Set, hfresh, DNSIPPool.Alloc, hempty]
  · intro a
    simp [DNSTable.Set, hfresh, DNSIPPool.Alloc, DNSIPPool.Release]

/-- Witness for C6: an exhausted four-address pool under an empty table. -/
theorem set_pool_exhausted_witness :
    tableExhausted.Set "w." "t" 0 = (none, tableExhausted) ∧
    ∀ a : Addr,
      ((({ tableExhausted with
            ipPool := tableExhausted.ipPool.Release a }).Set "w." "t" 0).1
        ).isSome = true :=
  set_pool_exhausted tableExhausted "w." "t" 0 (by decide) (by decide)

/-- C9: when a message's answers contain no IPv4 record, `SetRealIP` leaves
the real-address field unset, so the write-once guard does not engage and a
later call whose message does carry an IPv4 answer still sets the field. -/
theorem setRealIP_no_ipv4_keeps_unset (r : DomainRecord) (m1 m2 : DnsMsg)
    (h0 : r.realIP = none) (h1 : msgHasA m1 = false)
    (h2 : msgHasA m2 = true) :
    (r.SetRealIP m1).realIP = none ∧
    ((r.SetRealIP m1).SetRealIP m2).realIP.isSome = true := by
  have e1 : (r.SetRealIP m1).realIP = none := by
    simp only [DomainRecord.SetRealIP, h0]
    simp only [ne_eq, not_true_eq_false, if_false]
    exact scanAnswers_of_no_A h1 none
  refine ⟨e1, ?_⟩
  generalize hr1 : r.SetRealIP m1 = r1 at e1 ⊢
  simp [DomainRecord.SetRealIP, e1]
  exact scanAnswers_isSome_of_hasA h2 none

/-- Witness for C9: an A-free message, then one carrying an IPv4 answer. -/
theorem setRealIP_no_ipv4_keeps_unset_witness :
    ((sampleRecord "a." 5 10).SetRealIP { answer := [RR.Other] }).realIP =
      none ∧
    (((sampleRecord "a." 5 10).SetRealIP { answer := [RR.Other] }).SetRealIP
      { answer := [RR.Other, RR.A 9] }).realIP.isSome = true :=
  setRealIP_no_ipv4_keeps_unset (sampleRecord "a." 5 10)
    { answer := [RR.Other] } { answer := [RR.Other, RR.A 9] }
    (by decide) (by decide) (by decide)

/-- C5: from a freshly constructed tunnel, any non-empty sequence of `Close`
invocations — nil or non-nil reasons, any callers — closes the local endpoint
exactly once, closes the remote connection exactly once, logs a reason at
most once, and every invocation after the first leaves the tunnel state
unchanged. -/
theorem close_exactly_once (t : TCPTunnel) (rs : List (Option NetErr))
    (hne : rs ≠ []) (h0 : t.closeOnceDone = false)
    (h1 : t.localEndpointClosed = 0) (h2 : t.remoteConnClosed = 0)
    (h3 : t.reasonLogs = []) :
    (closeMany t rs).localEndpointClosed = 1 ∧
    (closeMany t rs).remoteConnClosed = 1 ∧
    (closeMany t rs).reasonLogs.length ≤ 1 ∧
    ∀ r, (closeMany t rs).Close r = closeMany t rs := by
  cases rs with
  | nil => exact absurd rfl hne
  | cons r rest =>
    have hdone : (t.Close r).closeOnceDone = true := close_sets_done t r
    have hrest : closeMany t (r :: rest) = t.Close r := by
      simp only [closeMany, List.foldl_cons]
      exact closeMany_done_fix (t.Close r) rest hdone
    rw [hrest]
    refine ⟨?_, ?_, ?_, fun r' => close_done_fix (t.Close r) r' hdone⟩ <;>
      cases r <;> simp [TCPTunnel.Close, h0, h1, h2, h3]

/-- Witness for C5: three racing closers, one with a reason. -/
theorem close_exactly_once_witness :
    (closeMany newTunnel [none, some NetErr.eof, none]).localEndpointClosed
      = 1 ∧
    (closeMany newTunnel [none, some NetErr.eof, none]).remoteConnClosed
      = 1 ∧
    (closeMany newTunnel [none, some NetErr.eof, none]).reasonLogs.length
      ≤ 1 ∧
    ∀ r, (closeMany newTunnel [none, some NetErr.eof, none]).Close r =
      closeMany newTunnel [none, some NetErr.eof, none] :=
  close_exactly_once newTunnel [none, some NetErr.eof, none]
    (by decide) rfl rfl rfl rfl

/-- C7: on the remote-read path of a tunnel whose once-guard is still armed,
a read failing with a timeout, connection-reset or end-of-stream error
produces `Close(nil)` — no error-level log line, no logged reason — while a
read failing with any unclassified error produces `Close(err)` with the
error appearing both in the error-level log and as the logged close
reason. -/
theorem remote_read_clean_vs_error (t : TCPTunnel) (e : NetErr)
    (ws : List WriteRes) (h : t.closeOnceDone = false) :
    ((Util.IsTimeout e || Util.IsConnectionReset e || Util.IsEOF e) = true →
      readFromRemoteIter t (RemoteReadEv.fail e) ws = (t.Close none, true) ∧
      (readFromRemoteIter t (RemoteReadEv.fail e) ws).1.errorLogs =
        t.errorLogs ∧
      (readFromRemoteIter t (RemoteReadEv.fail e) ws).1.reasonLogs =
        t.reasonLogs) ∧
    ((Util.IsTimeout e || Util.IsConnectionReset e || Util.IsEOF e) = false →
      readFromRemoteIter t (RemoteReadEv.fail e) ws =
        (({ t with errorLogs := t.errorLogs ++ [e] }).Close (some e),
          true) ∧
      (readFromRemoteIter t (RemoteReadEv.fail e) ws).1.errorLogs =
        t.errorLogs ++ [e] ∧
      (readFromRemoteIter t (RemoteReadEv.fail e) ws).1.reasonLogs =
        t.reasonLogs ++ [e]) := by
  constructor <;> intro hcl <;>
    cases e <;> simp_all [readFromRemoteIter, Util.IsTimeout,
      Util.IsConnectionReset, Util.IsEOF, TCPTunnel.Close]

/-- Witness for C7: a timeout (clean close) and an unclassified error
(logged error close) on a fresh tunnel. -/
theorem remote_read_clean_vs_error_witness :
    (readFromRemoteIter newTunnel (RemoteReadEv.fail NetErr.timeout) [] =
      (newTunnel.Close none, true) ∧
      (readFromRemoteIter newTunnel
        (RemoteReadEv.fail NetErr.timeout) []).1.errorLogs =
        newTunnel.errorLogs ∧
      (readFromRemoteIter newTunnel
        (RemoteReadEv.fail NetErr.timeout) []).1.reasonLogs =
        newTunnel.reasonLogs) ∧
    (readFromRemoteIter newTunnel (RemoteReadEv.fail (NetErr.other 3)) [] =
      (({ newTunnel with
          errorLogs := newTunnel.errorLogs ++ [NetErr.other 3] }).Close
        (some (NetErr.other 3)), true) ∧
      (readFromRemoteIter newTunnel
        (RemoteReadEv.fail (NetErr.other 3)) []).1.errorLogs =
        newTunnel.errorLogs ++ [NetErr.other 3] ∧
      (readFromRemoteIter newTunnel
        (RemoteReadEv.fail (NetErr.other 3)) []).1.reasonLogs =
        newTunnel.reasonLogs ++ [NetErr.other 3]) :=
  ⟨(remote_read_clean_vs_error newTunnel NetErr.timeout [] rfl).1 (by decide),
   (remote_read_clean_vs_error newTunnel (NetErr.other 3) [] rfl).2
     (by decide)⟩

/-- C8: evaluation of the race at the failing schedule.  `Run` performs its
two Proxying status writes only after the pumps are already running, so in
the execution where the remote read fails at once (an unclassified error,
whose handler runs `Close`), the trace of `Run` observes the remote status
Closed at step 1 and then Proxying at step 2 — the claimed monotonicity
"once Closed is observed, no subsequent observation reports Proxying" is
violated by the code. -/
theorem run_status_monotonicity_race :
    RunTraceOf [(RemoteReadEv.fail (NetErr.other 0), [])] raceActs ∧
    ((tunnelStates newTunnel raceActs)[1]?).map TCPTunnel.remoteStatus =
      some TunnelStatus.closed ∧
    ((tunnelStates newTunnel raceActs)[2]?).map TCPTunnel.remoteStatus =
      some TunnelStatus.proxying ∧
    ((tunnelStates newTunnel raceActs)[4]?).map TCPTunnel.remoteStatus =
      some TunnelStatus.proxying := by
  refine ⟨⟨[TunAct.remoteIterAct (RemoteReadEv.fail (NetErr.other 0)) [],
    TunAct.setRemoteStatusAct TunnelStatus.proxying,
    TunAct.setLocalStatusAct TunnelStatus.proxying], ?_, rfl⟩, ?_, ?_, ?_⟩
  · exact Interleave.right (Interleave.left (Interleave.left Interleave.nil))
  · decide
  · decide
  · decide

/-- C10: a successful zero-byte remote read breaks the pump loop with the
tunnel state untouched — nothing written to the local endpoint, `Close` not
invoked — and in the run whose remote script is exactly that read, teardown
happens through `Run`'s final `Close(nil)`: both handles closed once, no
reason logged, no local writes. -/
theorem zero_byte_read_breaks_loop (t : TCPTunnel) (ws : List WriteRes) :
    readFromRemoteIter t (RemoteReadEv.ok []) ws = (t, true) ∧
    RunTraceOf [(RemoteReadEv.ok [], [])] zeroReadActs ∧
    (List.foldl applyAct newTunnel zeroReadActs).closeOnceDone = true ∧
    (List.foldl applyAct newTunnel zeroReadActs).localEndpointClosed = 1 ∧
    (List.foldl applyAct newTunnel zeroReadActs).remoteConnClosed = 1 ∧
    (List.foldl applyAct newTunnel zeroReadActs).reasonLogs = [] ∧
    (List.foldl applyAct newTunnel zeroReadActs).localWrites = [] := by
  refine ⟨rfl, ⟨[TunAct.remoteIterAct (RemoteReadEv.ok []) [],
    TunAct.setRemoteStatusAct TunnelStatus.proxying,
    TunAct.setLocalStatusAct TunnelStatus.proxying], ?_, rfl⟩,
    ?_, ?_, ?_, ?_, ?_⟩
  · exact Interleave.right (Interleave.left (Interleave.left Interleave.nil))
  · decide
  · decide
  · decide
  · decide
  · decide
